import Mathlib

/-!
Shallow embedding of the pitch-detection core of the freq-detector repository.

Scalars: machine f64 values are embedded as exact rationals (ℚ). Division is
total in ℚ with x / 0 = 0; the float pipeline never relies on NaN/infinity
propagation for the properties below, and every theorem about a division also
records the expression being divided, so the idealization is explicit.

External collaborators (the rustfft forward/inverse transforms) and the
float-only primitives (natural logarithm, magnitude extraction) are not
rational-valued functions; they are abstracted as parameters bundled in
`Externals`, and every theorem quantifies over an arbitrary such bundle.

Source files embedded from src/: frequency/autocorrelation.rs,
frequency/cepstrum.rs, pitch.rs. The repository files core/fft_space.rs,
core/utils.rs, core/peak_iter.rs and core/constants.rs are not part of the
provided sources; the corresponding definitions below are modelled from the
specification and carry a doc comment saying so.
-/

/-- Complex number with rational components, embedding rustfft
Complex<f64> under the exact-arithmetic idealization of f64. -/
structure Cplx where
  re : ℚ
  im : ℚ
deriving DecidableEq

/-- Complex multiplication, as used by f * f.conj() in autocorrelation.rs. -/
def Cplx.mul (a b : Cplx) : Cplx :=
  ⟨a.re * b.re - a.im * b.im, a.re * b.im + a.im * b.re⟩

instance : Mul Cplx := ⟨Cplx.mul⟩

/-- Complex conjugate (Complex::conj). -/
def Cplx.conj (a : Cplx) : Cplx := ⟨a.re, -a.im⟩

/-- Squared magnitude (Complex::norm_sqr). -/
def Cplx.norm_sqr (a : Cplx) : ℚ := a.re * a.re + a.im * a.im

/-- Modelled from the spec: the Spectral Workspace of src/core/fft_space.rs,
which is not among the provided sources. It owns a reusable complex buffer;
the transform scratch storage is omitted because no embedded computation
reads it. -/
structure FftSpace where
  space : List Cplx
deriving DecidableEq

/-- Modelled from the spec: init_fft_space writes the real signal samples into
the buffer as complex values with zero imaginary part, overwriting any prior
contents (the spec requires the signal to have exactly the buffer length; the
prior buffer is discarded wholesale). -/
def FftSpace.init_fft_space (_fs : FftSpace) (signal : List ℚ) : FftSpace :=
  ⟨signal.map (fun s => ⟨s, 0⟩)⟩

/-- Elementwise map over the buffer (FftSpace::map). -/
def FftSpace.map (fs : FftSpace) (f : Cplx → Cplx) : FftSpace :=
  ⟨fs.space.map f⟩

/-- External collaborators of the core: the planned forward and inverse FFTs of
rustfft (applied in place to the buffer), the f64 natural logarithm used by the
power-cepstrum map, and the per-bin amplitude extraction of freq_domain (a
magnitude, hence a square root over f64). All are abstracted as parameters. -/
structure Externals where
  forwardFft : List Cplx → List Cplx
  inverseFft : List Cplx → List Cplx
  ln : ℚ → ℚ
  ampOf : Cplx → ℚ

/-- Modelled from the spec: freq_domain (normalize = false, the only use in the
embedded sources) yields the per-bin amplitude values derived from the buffer
contents; the phase component is discarded immediately by the cepstrum path, so
only the amplitude list is produced. -/
def FftSpace.freq_domain (E : Externals) (fs : FftSpace) : List ℚ :=
  fs.space.map E.ampOf

/-- Sub-bin peak point (FftPoint): fractional position x and amplitude y. -/
structure FftPoint where
  x : ℚ
  y : ℚ
deriving DecidableEq

/-- Modelled from the spec: the Peak Interpolator interpolated_peak_at of
src/core/utils.rs, which is not among the provided sources. Fits a parabola
through the candidate index and its two neighbors (3-point quadratic vertex
interpolation); returns none when the candidate sits at either array boundary
or the fit denominator is zero. -/
def interpolated_peak_at (spectrum : List ℚ) (i : ℕ) : Option FftPoint :=
  if i = 0 ∨ spectrum.length ≤ i + 1 then none
  else
    let l := spectrum.getD (i - 1) 0
    let c := spectrum.getD i 0
    let r := spectrum.getD (i + 1) 0
    let denom := l - 2 * c + r
    if denom = 0 then none
    else some ⟨(i : ℚ) + (l - r) / (2 * denom), c - (l - r) ^ 2 / (8 * denom)⟩

/-- Shared maximum scan. Embeds the Rust iterator reduce with the closure
if item.1 > accum.1 { item } else { accum }, which appears verbatim in
autocorrelation.rs (detect_unscaled_freq), cepstrum.rs (detect_unscaled_freq)
and pitch.rs (detect_pitch): the new element replaces the accumulator only
under strict greater-than, so ties keep the earlier element. -/
def reduce_max {α : Type} (xs : List (α × ℚ)) : Option (α × ℚ) :=
  match xs with
  | [] => none
  | a :: rest => some (rest.foldl (fun accum q => if q.2 > accum.2 then q else accum) a)

/-!
Autocorrelation detector (src/frequency/autocorrelation.rs).

MIN_FREQ and MAX_FREQ live in src/core/constants.rs, which is not among the
provided sources; the spec fixes them only as the global frequency bounds, so
they are passed as parameters wherever the source reads the constants.

Rust f64::round rounds half away from zero and the usize cast clamps negative
values to zero; for every argument this composite agrees with Mathlib round
(half toward positive infinity) followed by Int.toNat, because the two rounding
modes only differ at negative half-integers, where the clamp sends both to 0.
-/

/-- Quefrency search range of the autocorrelation detector:
(round(sample_rate / MAX_FREQ), round(sample_rate / MIN_FREQ)). -/
def AutocorrelationDetector.relevant_fft_range
    (MIN_FREQ MAX_FREQ sample_rate : ℚ) : ℕ × ℕ :=
  ((round (sample_rate / MAX_FREQ)).toNat, (round (sample_rate / MIN_FREQ)).toNat)

/-- Windowed, r[0]-normalized autocorrelation curve: skip lower_limit, take
(upper_limit - lower_limit), divide each real part by the real part of bin 0.
Rust indexing space()[0] panics on an empty buffer; the ℚ embedding reads the
default 0 there, and every theorem touching this definition exposes the
divisor explicitly. -/
def AutocorrelationDetector.unscaled_spectrum (fs : FftSpace) (fft_range : ℕ × ℕ) :
    List ℚ :=
  ((fs.space.drop fft_range.1).take (fft_range.2 - fft_range.1)).map
    (fun f => f.re / (fs.space.getD 0 ⟨0, 0⟩).re)

/-- Autocorrelation pipeline on the workspace: initialize from the signal,
forward FFT, elementwise f * conj(f) (power spectrum), inverse FFT. -/
def AutocorrelationDetector.process_fft (E : Externals) (signal : List ℚ)
    (fs : FftSpace) : FftSpace :=
  let fs1 := fs.init_fft_space signal
  let fs2 : FftSpace := ⟨E.forwardFft fs1.space⟩
  let fs3 := fs2.map (fun f => f * f.conj)
  ⟨E.inverseFft fs3.space⟩

/-- Windowed maximum scan followed by peak interpolation; also returns the
final workspace state (the Rust function mutates fft_space in place). -/
def AutocorrelationDetector.detect_unscaled_freq (E : Externals) (signal : List ℚ)
    (fft_range : ℕ × ℕ) (fs : FftSpace) : Option FftPoint × FftSpace :=
  let fsp := AutocorrelationDetector.process_fft E signal fs
  let us := AutocorrelationDetector.unscaled_spectrum fsp fft_range
  match reduce_max us.enum with
  | none => (none, fsp)
  | some fft_point => (interpolated_peak_at us fft_point.1, fsp)

/-- Detection entry point of the autocorrelation detector: compute the range,
detect the unscaled peak, convert via sample_rate / (lower_limit + point.x). -/
def AutocorrelationDetector.detect_frequency_with_fft_space (E : Externals)
    (MIN_FREQ MAX_FREQ : ℚ) (signal : List ℚ) (sample_rate : ℚ) (fs : FftSpace) :
    Option ℚ × FftSpace :=
  let lims := AutocorrelationDetector.relevant_fft_range MIN_FREQ MAX_FREQ sample_rate
  let r := AutocorrelationDetector.detect_unscaled_freq E signal lims fs
  (r.1.map (fun point => sample_rate / ((lims.1 : ℚ) + point.x)), r.2)

/-!
Peak Finder (src/core/peak_iter.rs, not among the provided sources): modelled
from the spec as an eagerly materialized filtered list (the spec allows either
a pull-based generator or an eager list, as long as output order and tie-breaks
match). A candidate is a strict local maximum; its prominence is its height
above the higher of its two adjacent local valleys; accepted maxima suppress
smaller competitors within the minimum bin separation; each survivor is
reported with its sub-bin interpolated position (built on the carried absolute
bin index) and interpolated amplitude.
-/

/-- Strict local maximum test at list position j (both neighbors strictly
smaller and both neighbors inside the list). -/
def isLocalMax (amps : List ℚ) (j : ℕ) : Bool :=
  decide (0 < j) && decide (j + 1 < amps.length) &&
    decide (amps.getD (j - 1) 0 < amps.getD j 0) &&
    decide (amps.getD (j + 1) 0 < amps.getD j 0)

/-- Modelled from the spec: value of the nearest local valley on the left,
walking left from position k while values keep strictly decreasing in that
direction. -/
def leftValleyFrom (amps : List ℚ) : ℕ → ℚ
  | 0 => amps.getD 0 0
  | k + 1 =>
    if amps.getD k 0 < amps.getD (k + 1) 0 then leftValleyFrom amps k
    else amps.getD (k + 1) 0

/-- Modelled from the spec: value of the nearest local valley on the right,
walking right from position k (fuel-bounded structural recursion). -/
def rightValleyFrom (amps : List ℚ) : ℕ → ℕ → ℚ
  | 0, k => amps.getD k 0
  | fuel + 1, k =>
    if k + 1 < amps.length ∧ amps.getD (k + 1) 0 < amps.getD k 0 then
      rightValleyFrom amps fuel (k + 1)
    else amps.getD k 0

/-- Prominence of the local maximum at position j: its height above the higher
of its two adjacent local valleys. -/
def prominence (amps : List ℚ) (j : ℕ) : ℚ :=
  amps.getD j 0 -
    max (leftValleyFrom amps (j - 1)) (rightValleyFrom amps amps.length (j + 1))

/-- Separation filter step (accepted positions kept most-recent-first): a new
candidate within minSep bins of the last accepted one replaces it only when
strictly larger; otherwise the candidate is appended. -/
def sepStep (minSep : ℕ) (amps : List ℚ) (acc : List ℕ) (j : ℕ) : List ℕ :=
  match acc with
  | [] => [j]
  | p :: rest =>
    if j - p < minSep then
      if amps.getD p 0 < amps.getD j 0 then j :: rest else p :: rest
    else j :: p :: rest

/-- Sub-bin interpolation of the accepted local maximum at list position j:
the reported x-coordinate is the carried absolute bin index of element j plus
the parabola vertex offset, the amplitude is the vertex amplitude. -/
def peakAt (xs : List (ℕ × ℚ)) (j : ℕ) : ℚ × ℚ :=
  let l := (xs.getD (j - 1) (0, 0)).2
  let c := (xs.getD j (0, 0)).2
  let r := (xs.getD (j + 1) (0, 0)).2
  let denom := l - 2 * c + r
  (((xs.getD j (0, 0)).1 : ℚ) + (l - r) / (2 * denom),
    c - (l - r) ^ 2 / (8 * denom))

/-- Modelled from the spec: the Peak Finder fft_peaks over an (index, amplitude)
sequence, with minimum bin separation and minimum prominence filters applied
together, yielding interpolated (position, amplitude) pairs in input order. -/
def fft_peaks (xs : List (ℕ × ℚ)) (minSep : ℕ) (minProminence : ℚ) :
    List (ℚ × ℚ) :=
  let amps := xs.map Prod.snd
  let cands := (List.range xs.length).filter
    (fun j => isLocalMax amps j && decide (minProminence ≤ prominence amps j))
  ((cands.foldl (sepStep minSep amps) []).reverse).map (peakAt xs)

/-!
Power-cepstrum detector (src/frequency/cepstrum.rs).
-/

/-- Quefrency search range of the power-cepstrum detector; textually identical
to the autocorrelation one in the source. -/
def PowerCepstrum.relevant_fft_range (MIN_FREQ MAX_FREQ sample_rate : ℚ) : ℕ × ℕ :=
  ((round (sample_rate / MAX_FREQ)).toNat, (round (sample_rate / MIN_FREQ)).toNat)

/-- Windowed cepstrum handed to the peak finder: freq_domain amplitudes are
enumerated first, then skip lower_limit and take (upper_limit - lower_limit),
so each element keeps its absolute quefrency bin index. -/
def PowerCepstrum.spectrum (E : Externals) (fs : FftSpace) (fft_range : ℕ × ℕ) :
    List (ℕ × ℚ) :=
  (((fs.freq_domain E).enum).drop fft_range.1).take (fft_range.2 - fft_range.1)

/-- Power-cepstrum pipeline on the workspace: initialize from the signal,
forward FFT, elementwise ln(norm_sqr) into the real component, inverse FFT. -/
def PowerCepstrum.process_fft (E : Externals) (signal : List ℚ) (fs : FftSpace) :
    FftSpace :=
  let fs1 := fs.init_fft_space signal
  let fs2 : FftSpace := ⟨E.forwardFft fs1.space⟩
  let fs3 := fs2.map (fun f => ⟨E.ln f.norm_sqr, 0⟩)
  ⟨E.inverseFft fs3.space⟩

/-- Peak-finder pass (minimum separation 60, minimum prominence 10) followed by
the maximum scan over the surviving candidates; also returns the final
workspace state. -/
def PowerCepstrum.detect_unscaled_freq (E : Externals) (signal : List ℚ)
    (fft_range : ℕ × ℕ) (fs : FftSpace) : Option FftPoint × FftSpace :=
  let fsp := PowerCepstrum.process_fft E signal fs
  let r := (reduce_max (fft_peaks (PowerCepstrum.spectrum E fsp fft_range) 60 10)).map
    (fun mu_amp => FftPoint.mk mu_amp.1 mu_amp.2)
  (r, fsp)

/-- Detection entry point of the power-cepstrum detector: compute the range,
detect the unscaled peak, convert via sample_rate / point.x (no lower-limit
offset is added before the division). -/
def PowerCepstrum.detect_frequency_with_fft_space (E : Externals)
    (MIN_FREQ MAX_FREQ : ℚ) (signal : List ℚ) (sample_rate : ℚ) (fs : FftSpace) :
    Option ℚ × FftSpace :=
  let fft_range := PowerCepstrum.relevant_fft_range MIN_FREQ MAX_FREQ sample_rate
  let r := PowerCepstrum.detect_unscaled_freq E signal fft_range fs
  (r.1.map (fun point => sample_rate / point.x), r.2)

/-!
Generic pitch detection (src/pitch.rs): the PitchDetector trait default method
detect_pitch over an abstract SignalToSpectrum implementation.
-/

/-- Abstract SignalToSpectrum capability of pitch.rs: produces a start bin and
an amplitude spectrum from a signal (with an optional frequency-range hint
paired with the sample rate), and converts a fractional bin to a frequency. -/
structure SignalToSpectrum where
  signal_to_spectrum : List ℚ → Option ((ℚ × ℚ) × ℚ) → ℕ × List ℚ
  bin_to_freq : ℚ → ℚ → ℚ

/-- Default detect_pitch of the PitchDetector trait: maximum scan over the
enumerated spectrum, peak interpolation at the winning index, then bin-to-
frequency conversion of (interpolated bin + start bin). -/
def detect_pitch (S : SignalToSpectrum) (signal : List ℚ) (sample_rate : ℚ)
    (freq_range_hint : Option (ℚ × ℚ)) : Option ℚ :=
  let sb := S.signal_to_spectrum signal
    (freq_range_hint.map (fun r => (r, sample_rate)))
  match reduce_max sb.2.enum with
  | none => none
  | some max_bin =>
    (interpolated_peak_at sb.2 max_bin.1).map
      (fun p => S.bin_to_freq (p.x + (sb.1 : ℚ)) sample_rate)

/-!
Helper definitions and lemmas shared by several verification theorems.
-/

/-- Concrete Externals bundle (identity transforms, identity logarithm, real
part as amplitude) used to instantiate theorems on concrete inputs. -/
def Eid : Externals := ⟨id, id, id, Cplx.re⟩

/-- Unfolding lemma for the Mul instance on Cplx. -/
theorem Cplx.mul_def (a b : Cplx) :
    a * b = ⟨a.re * b.re - a.im * b.im, a.re * b.im + a.im * b.re⟩ := rfl

/-- First component of the autocorrelation detect_unscaled_freq, written as a
bind: the maximum scan feeds the Peak Interpolator. -/
theorem autocorr_detect_eq_bind (E : Externals) (signal : List ℚ)
    (fft_range : ℕ × ℕ) (fs : FftSpace) :
    (AutocorrelationDetector.detect_unscaled_freq E signal fft_range fs).1 =
      (reduce_max (AutocorrelationDetector.unscaled_spectrum
          (AutocorrelationDetector.process_fft E signal fs) fft_range).enum).bind
        (fun fft_point => interpolated_peak_at
          (AutocorrelationDetector.unscaled_spectrum
            (AutocorrelationDetector.process_fft E signal fs) fft_range)
          fft_point.1) := by
  rcases hr : reduce_max (AutocorrelationDetector.unscaled_spectrum
      (AutocorrelationDetector.process_fft E signal fs) fft_range).enum with _ | fp <;>
    simp [AutocorrelationDetector.detect_unscaled_freq, hr]

/-- C1: for every signal and sample rate for which the Autocorrelation Detector
returns a frequency, the returned value equals
sample_rate / (lower_bin + interpolated_offset), where lower_bin is
round(sample_rate / MAX_FREQ) (the first component of the restricted range) and
the interpolated offset is the x-coordinate of the peak produced by the Peak
Interpolator at the index selected by the maximum scan over the restricted
window. -/
theorem C1_autocorr_freq_is_rate_over_lower_plus_offset
    (E : Externals) (MIN_FREQ MAX_FREQ : ℚ) (signal : List ℚ) (sample_rate : ℚ)
    (fs : FftSpace) (f : ℚ)
    (h : (AutocorrelationDetector.detect_frequency_with_fft_space E MIN_FREQ MAX_FREQ
      signal sample_rate fs).1 = some f) :
    ∃ i v point,
      reduce_max (AutocorrelationDetector.unscaled_spectrum
          (AutocorrelationDetector.process_fft E signal fs)
          (AutocorrelationDetector.relevant_fft_range MIN_FREQ MAX_FREQ sample_rate)).enum
        = some (i, v) ∧
      interpolated_peak_at
          (AutocorrelationDetector.unscaled_spectrum
            (AutocorrelationDetector.process_fft E signal fs)
            (AutocorrelationDetector.relevant_fft_range MIN_FREQ MAX_FREQ sample_rate)) i
        = some point ∧
      (AutocorrelationDetector.relevant_fft_range MIN_FREQ MAX_FREQ sample_rate).1
        = (round (sample_rate / MAX_FREQ)).toNat ∧
      f = sample_rate / (((round (sample_rate / MAX_FREQ)).toNat : ℚ) + point.x) := by
  have h1 : ((AutocorrelationDetector.detect_unscaled_freq E signal
      (AutocorrelationDetector.relevant_fft_range MIN_FREQ MAX_FREQ sample_rate) fs).1).map
      (fun point => sample_rate /
        (((AutocorrelationDetector.relevant_fft_range MIN_FREQ MAX_FREQ sample_rate).1 : ℚ)
          + point.x)) = some f := h
  rw [autocorr_detect_eq_bind] at h1
  rcases hr : reduce_max (AutocorrelationDetector.unscaled_spectrum
      (AutocorrelationDetector.process_fft E signal fs)
      (AutocorrelationDetector.relevant_fft_range MIN_FREQ MAX_FREQ sample_rate)).enum
    with _ | fp
  · rw [hr] at h1; simp at h1
  · rw [hr] at h1
    simp only [Option.bind_some, Option.map_eq_some'] at h1
    obtain ⟨point, hp, hf⟩ := h1
    exact ⟨fp.1, fp.2, point, by rw [← hr], hp, rfl, hf.symm⟩

/-- C1 witness: identity transforms, range (1, 5) from rates (2, 10, 10),
signal [1, 1, 2, 1, 1, 0]; the detector returns 10 / (1 + 1) = 5. -/
theorem C1_autocorr_freq_is_rate_over_lower_plus_offset_witness :
    (AutocorrelationDetector.detect_frequency_with_fft_space Eid 2 10
      [1, 1, 2, 1, 1, 0] 10 ⟨[]⟩).1 = some 5 ∧
    ∃ i v point,
      reduce_max (AutocorrelationDetector.unscaled_spectrum
          (AutocorrelationDetector.process_fft Eid [1, 1, 2, 1, 1, 0] ⟨[]⟩)
          (AutocorrelationDetector.relevant_fft_range 2 10 10)).enum
        = some (i, v) ∧
      interpolated_peak_at
          (AutocorrelationDetector.unscaled_spectrum
            (AutocorrelationDetector.process_fft Eid [1, 1, 2, 1, 1, 0] ⟨[]⟩)
            (AutocorrelationDetector.relevant_fft_range 2 10 10)) i
        = some point ∧
      (AutocorrelationDetector.relevant_fft_range 2 10 10).1
        = (round ((10 : ℚ) / 10)).toNat ∧
      (5 : ℚ) = 10 / (((round ((10 : ℚ) / 10)).toNat : ℚ) + point.x) := by
  have hev : (AutocorrelationDetector.detect_frequency_with_fft_space Eid 2 10
      [1, 1, 2, 1, 1, 0] 10 ⟨[]⟩).1 = some 5 := by
    have hrange : AutocorrelationDetector.relevant_fft_range 2 10 10 = (1, 5) := by
      norm_num [AutocorrelationDetector.relevant_fft_range]
      rfl
    norm_num [AutocorrelationDetector.detect_frequency_with_fft_space, hrange,
      AutocorrelationDetector.detect_unscaled_freq,
      AutocorrelationDetector.process_fft,
      AutocorrelationDetector.unscaled_spectrum,
      FftSpace.init_fft_space, FftSpace.map, Eid,
      reduce_max, interpolated_peak_at, List.enum, List.enumFrom,
      Cplx.conj, Cplx.mul_def]
  exact ⟨hev, C1_autocorr_freq_is_rate_over_lower_plus_offset Eid 2 10
    [1, 1, 2, 1, 1, 0] 10 ⟨[]⟩ 5 hev⟩

/-- First component of the power-cepstrum detect_unscaled_freq, written as a
map over the maximum scan of the peak-finder candidates. -/
theorem cepstrum_detect_eq_map (E : Externals) (signal : List ℚ)
    (fft_range : ℕ × ℕ) (fs : FftSpace) :
    (PowerCepstrum.detect_unscaled_freq E signal fft_range fs).1 =
      (reduce_max (fft_peaks (PowerCepstrum.spectrum E
          (PowerCepstrum.process_fft E signal fs) fft_range) 60 10)).map
        (fun mu_amp => FftPoint.mk mu_amp.1 mu_amp.2) := rfl

/-- C2: for every signal and sample rate for which the Power-Cepstrum Detector
returns a frequency, the returned value equals sample_rate / interpolated_bin,
where interpolated_bin is the x-coordinate of the selected interpolated
cepstral peak; no lower-bin offset is added before the division (contrast the
autocorrelation conversion, which divides by lower_bin + offset). -/
theorem C2_cepstrum_freq_is_rate_over_interpolated_bin
    (E : Externals) (MIN_FREQ MAX_FREQ : ℚ) (signal : List ℚ) (sample_rate : ℚ)
    (fs : FftSpace) (f : ℚ)
    (h : (PowerCepstrum.detect_frequency_with_fft_space E MIN_FREQ MAX_FREQ
      signal sample_rate fs).1 = some f) :
    ∃ mu amp,
      reduce_max (fft_peaks (PowerCepstrum.spectrum E
          (PowerCepstrum.process_fft E signal fs)
          (PowerCepstrum.relevant_fft_range MIN_FREQ MAX_FREQ sample_rate)) 60 10)
        = some (mu, amp) ∧
      f = sample_rate / mu := by
  have h1 : ((PowerCepstrum.detect_unscaled_freq E signal
      (PowerCepstrum.relevant_fft_range MIN_FREQ MAX_FREQ sample_rate) fs).1).map
      (fun point => sample_rate / point.x) = some f := h
  rw [cepstrum_detect_eq_map] at h1
  rw [Option.map_map] at h1
  obtain ⟨p, hp, hf⟩ := Option.map_eq_some'.mp h1
  exact ⟨p.1, p.2, hp, hf.symm⟩

/-- C2 witness: identity transforms, range (1, 6) from rates (2, 12, 12),
signal [2, 0, 0, 10, 6, 0]; the selected interpolated peak sits at bin
255/82 = 3 + 9/82 and the detector returns 12 / (255/82) = 328/85. -/
theorem C2_cepstrum_freq_is_rate_over_interpolated_bin_witness :
    (PowerCepstrum.detect_frequency_with_fft_space Eid 2 12
      [2, 0, 0, 10, 6, 0] 12 ⟨[]⟩).1 = some (328/85) ∧
    ∃ mu amp,
      reduce_max (fft_peaks (PowerCepstrum.spectrum Eid
          (PowerCepstrum.process_fft Eid [2, 0, 0, 10, 6, 0] ⟨[]⟩)
          (PowerCepstrum.relevant_fft_range 2 12 12)) 60 10)
        = some (mu, amp) ∧
      (328/85 : ℚ) = 12 / mu := by
  have hev : (PowerCepstrum.detect_frequency_with_fft_space Eid 2 12
      [2, 0, 0, 10, 6, 0] 12 ⟨[]⟩).1 = some (328/85) := by
    have hrange : PowerCepstrum.relevant_fft_range 2 12 12 = (1, 6) := by
      norm_num [PowerCepstrum.relevant_fft_range]
      rfl
    norm_num [PowerCepstrum.detect_frequency_with_fft_space, hrange,
      PowerCepstrum.detect_unscaled_freq, PowerCepstrum.process_fft,
      PowerCepstrum.spectrum, FftSpace.freq_domain,
      FftSpace.init_fft_space, FftSpace.map, Eid, Cplx.norm_sqr,
      reduce_max, fft_peaks, isLocalMax, prominence, leftValleyFrom,
      rightValleyFrom, sepStep, peakAt, List.enum, List.enumFrom,
      List.range, List.filter]
  exact ⟨hev, C2_cepstrum_freq_is_rate_over_interpolated_bin Eid 2 12
    [2, 0, 0, 10, 6, 0] 12 ⟨[]⟩ (328/85) hev⟩

/-- C9: detection is deterministic and a pure function of (signal contents,
sample rate): the result of the workspace-based entry point does not depend on
the incoming workspace contents at all, for either detector, because the
workspace is fully re-initialized from the signal inside the call; two calls
with the same signal and sample rate and any two workspaces (in particular two
freshly-initialized ones) yield identical results. -/
theorem C9_detection_deterministic_pure
    (E : Externals) (MIN_FREQ MAX_FREQ : ℚ) (signal : List ℚ) (sample_rate : ℚ)
    (fs1 fs2 : FftSpace) :
    (AutocorrelationDetector.detect_frequency_with_fft_space E MIN_FREQ MAX_FREQ
        signal sample_rate fs1).1 =
      (AutocorrelationDetector.detect_frequency_with_fft_space E MIN_FREQ MAX_FREQ
        signal sample_rate fs2).1 ∧
    (PowerCepstrum.detect_frequency_with_fft_space E MIN_FREQ MAX_FREQ
        signal sample_rate fs1).1 =
      (PowerCepstrum.detect_frequency_with_fft_space E MIN_FREQ MAX_FREQ
        signal sample_rate fs2).1 := ⟨rfl, rfl⟩

/-- C10: no residual influence of a previous signal: for either detector,
running detection on signal B with the workspace left over from a detection on
signal A gives the same result as running it on B with any fresh workspace,
because the initialization inside each call overwrites the whole buffer. -/
theorem C10_workspace_overwrite_no_residual
    (E : Externals) (MIN_FREQ MAX_FREQ : ℚ) (A B : List ℚ) (sample_rate : ℚ)
    (fs fresh : FftSpace) :
    (AutocorrelationDetector.detect_frequency_with_fft_space E MIN_FREQ MAX_FREQ
        B sample_rate
        (AutocorrelationDetector.detect_frequency_with_fft_space E MIN_FREQ MAX_FREQ
          A sample_rate fs).2).1 =
      (AutocorrelationDetector.detect_frequency_with_fft_space E MIN_FREQ MAX_FREQ
        B sample_rate fresh).1 ∧
    (PowerCepstrum.detect_frequency_with_fft_space E MIN_FREQ MAX_FREQ
        B sample_rate
        (PowerCepstrum.detect_frequency_with_fft_space E MIN_FREQ MAX_FREQ
          A sample_rate fs).2).1 =
      (PowerCepstrum.detect_frequency_with_fft_space E MIN_FREQ MAX_FREQ
        B sample_rate fresh).1 := ⟨rfl, rfl⟩

/-- C7: every value of the restricted quefrency window handed to the
autocorrelation maximum scan equals the real part of the corresponding
autocorrelation bin (bin lower_limit + i for window position i) divided by the
real part of bin 0, the zero-lag term of the processed workspace. -/
theorem C7_autocorr_window_normalized_by_r0
    (E : Externals) (signal : List ℚ) (fs0 : FftSpace) (fft_range : ℕ × ℕ) (i : ℕ)
    (h : i < (AutocorrelationDetector.unscaled_spectrum
      (AutocorrelationDetector.process_fft E signal fs0) fft_range).length) :
    (AutocorrelationDetector.unscaled_spectrum
        (AutocorrelationDetector.process_fft E signal fs0) fft_range).getD i 0 =
      ((AutocorrelationDetector.process_fft E signal fs0).space.getD
          (fft_range.1 + i) ⟨0, 0⟩).re /
        ((AutocorrelationDetector.process_fft E signal fs0).space.getD 0 ⟨0, 0⟩).re := by
  set fs := AutocorrelationDetector.process_fft E signal fs0 with hfs
  unfold AutocorrelationDetector.unscaled_spectrum at h ⊢
  have hlen : i < ((fs.space.drop fft_range.1).take (fft_range.2 - fft_range.1)).length := by
    simpa using h
  have hlen2 : i < (fs.space.drop fft_range.1).length := by
    simp only [List.length_take] at hlen
    omega
  have hbound : fft_range.1 + i < fs.space.length := by
    simp only [List.length_drop] at hlen2
    omega
  rw [List.getD_eq_getElem _ _ h, List.getElem_map, List.getElem_take,
    List.getElem_drop, List.getD_eq_getElem _ _ hbound]

/-- C7 witness: the concrete window of the C1 run has 4 entries; entry 1 is
bin 2 of the processed space divided by bin 0, that is 4 / 1. -/
theorem C7_autocorr_window_normalized_by_r0_witness :
    1 < (AutocorrelationDetector.unscaled_spectrum
      (AutocorrelationDetector.process_fft Eid [1, 1, 2, 1, 1, 0] ⟨[]⟩) (1, 5)).length ∧
    (AutocorrelationDetector.unscaled_spectrum
        (AutocorrelationDetector.process_fft Eid [1, 1, 2, 1, 1, 0] ⟨[]⟩) (1, 5)).getD 1 0 =
      ((AutocorrelationDetector.process_fft Eid [1, 1, 2, 1, 1, 0] ⟨[]⟩).space.getD
          ((1, 5).1 + 1) ⟨0, 0⟩).re /
        ((AutocorrelationDetector.process_fft Eid [1, 1, 2, 1, 1, 0] ⟨[]⟩).space.getD
          0 ⟨0, 0⟩).re := by
  have hl : 1 < (AutocorrelationDetector.unscaled_spectrum
      (AutocorrelationDetector.process_fft Eid [1, 1, 2, 1, 1, 0] ⟨[]⟩) (1, 5)).length := by
    norm_num [AutocorrelationDetector.unscaled_spectrum,
      AutocorrelationDetector.process_fft, FftSpace.init_fft_space, FftSpace.map,
      Eid, Cplx.conj, Cplx.mul_def]
  exact ⟨hl, C7_autocorr_window_normalized_by_r0 Eid [1, 1, 2, 1, 1, 0] ⟨[]⟩ (1, 5) 1 hl⟩

/-- Decomposition of the strict-greater-than fold: the accumulated result of
scanning a :: l splits the list into a strict-smaller prefix, the result
itself, and a no-greater suffix (so the result is the earliest element
attaining the maximum). -/
theorem foldl_strict_max_split {α : Type} (l : List (α × ℚ)) (a : α × ℚ) :
    ∃ l1 l2,
      a :: l = l1 ++ (l.foldl (fun accum q => if q.2 > accum.2 then q else accum) a) :: l2 ∧
      (∀ x ∈ l1, x.2 < (l.foldl (fun accum q => if q.2 > accum.2 then q else accum) a).2) ∧
      (∀ x ∈ l2, x.2 ≤ (l.foldl (fun accum q => if q.2 > accum.2 then q else accum) a).2) := by
  induction l generalizing a with
  | nil => exact ⟨[], [], rfl, by simp, by simp⟩
  | cons q t ih =>
    rw [List.foldl_cons]
    by_cases hq : q.2 > a.2
    · rw [if_pos hq]
      obtain ⟨l1, l2, heq, h1, h2⟩ := ih q
      have hqle : q.2 ≤ (t.foldl (fun accum q => if q.2 > accum.2 then q else accum) q).2 := by
        cases l1 with
        | nil =>
          rw [List.nil_append] at heq
          rw [← (List.cons.injEq _ _ _ _).mp heq |>.1]
        | cons b l1t =>
          rw [List.cons_append] at heq
          have hb : q = b := ((List.cons.injEq _ _ _ _).mp heq).1
          exact le_of_lt (hb ▸ h1 b (List.mem_cons_self b l1t) : q.2 < _)
      refine ⟨a :: l1, l2, by rw [List.cons_append, ← heq], ?_, h2⟩
      intro x hx
      rcases List.mem_cons.mp hx with rfl | hx
      · exact lt_of_lt_of_le hq hqle
      · exact h1 x hx
    · rw [if_neg hq]
      push_neg at hq
      obtain ⟨l1, l2, heq, h1, h2⟩ := ih a
      cases l1 with
      | nil =>
        rw [List.nil_append] at heq
        obtain ⟨ha, ht⟩ := (List.cons.injEq _ _ _ _).mp heq
        refine ⟨[], q :: l2, ?_, by simp, ?_⟩
        · rw [List.nil_append, ← ha, ← ht]
        · intro x hx
          rcases List.mem_cons.mp hx with rfl | hx
          · rw [← ha]; exact hq
          · exact h2 x hx
      | cons b l1t =>
        rw [List.cons_append] at heq
        obtain ⟨hb, ht⟩ := (List.cons.injEq _ _ _ _).mp heq
        refine ⟨a :: q :: l1t, l2, ?_, ?_, h2⟩
        · rw [List.cons_append, List.cons_append, ← ht]
        · intro x hx
          have hares : a.2 < (t.foldl (fun accum q => if q.2 > accum.2 then q else accum) a).2 :=
            hb ▸ h1 b (List.mem_cons_self b l1t)
          rcases List.mem_cons.mp hx with rfl | hx
          · exact hares
          · rcases List.mem_cons.mp hx with rfl | hx
            · exact lt_of_le_of_lt hq hares
            · exact h1 x (List.mem_cons_of_mem b hx)

/-- Earliest-maximum characterization of reduce_max, shared by the theorems
about the three scan sites. -/
theorem reduce_max_split {α : Type} (xs : List (α × ℚ)) (r : α × ℚ)
    (h : reduce_max xs = some r) :
    ∃ l1 l2, xs = l1 ++ r :: l2 ∧ (∀ x ∈ l1, x.2 < r.2) ∧ (∀ x ∈ l2, x.2 ≤ r.2) := by
  cases xs with
  | nil => simp [reduce_max] at h
  | cons a t =>
    have hr : t.foldl (fun accum q => if q.2 > accum.2 then q else accum) a = r := by
      simpa [reduce_max] using h
    obtain ⟨l1, l2, heq, h1, h2⟩ := foldl_strict_max_split t a
    rw [hr] at heq h1 h2
    exact ⟨l1, l2, heq, h1, h2⟩

/-- C5: the element selected by the shared maximum scan reduce_max (the scan
run by the autocorrelation restricted-window search, the power-cepstrum
candidate selection, and the generic detect_pitch scan, each of which is
embedded as reduce_max over its amplitude sequence) is one with the greatest
value under strict greater-than comparison: everything before it in the list
is strictly smaller and nothing after it is greater, so among equal maxima the
earliest-encountered element wins. -/
theorem C5_reduce_max_selects_earliest_strict_max {α : Type}
    (xs : List (α × ℚ)) (r : α × ℚ) (h : reduce_max xs = some r) :
    ∃ l1 l2, xs = l1 ++ r :: l2 ∧ (∀ x ∈ l1, x.2 < r.2) ∧ (∀ x ∈ l2, x.2 ≤ r.2) :=
  reduce_max_split xs r h

/-- C5 witness: a scan with a tie between positions 1 and 2 (both 7) returns
the earlier pair (1, 7). -/
theorem C5_reduce_max_selects_earliest_strict_max_witness :
    reduce_max [(0, (1 : ℚ)), (1, 7), (2, 7), (3, 5)] = some (1, 7) ∧
    ∃ l1 l2, [(0, (1 : ℚ)), (1, 7), (2, 7), (3, 5)] = l1 ++ (1, 7) :: l2 ∧
      (∀ x ∈ l1, x.2 < (7 : ℚ)) ∧ (∀ x ∈ l2, x.2 ≤ (7 : ℚ)) := by
  have hr : reduce_max [(0, (1 : ℚ)), (1, 7), (2, 7), (3, 5)] = some (1, 7) := by
    norm_num [reduce_max]
  exact ⟨hr, C5_reduce_max_selects_earliest_strict_max _ _ hr⟩

/-- C8: the Power-Cepstrum Detector never takes the global maximum of the
window directly: its selection operates on the candidate list produced by the
Peak Finder with minimum bin separation exactly 60 and minimum prominence
exactly 10, and whenever it returns a peak, that peak splits the candidate
list into a strictly-smaller prefix and a no-greater suffix, i.e. it is the
earliest candidate of greatest amplitude. -/
theorem C8_cepstrum_peak_finder_then_earliest_max
    (E : Externals) (signal : List ℚ) (fft_range : ℕ × ℕ) (fs : FftSpace) (p : FftPoint)
    (h : (PowerCepstrum.detect_unscaled_freq E signal fft_range fs).1 = some p) :
    ∃ l1 l2,
      fft_peaks (PowerCepstrum.spectrum E
          (PowerCepstrum.process_fft E signal fs) fft_range) 60 10
        = l1 ++ (p.x, p.y) :: l2 ∧
      (∀ x ∈ l1, x.2 < p.y) ∧ (∀ x ∈ l2, x.2 ≤ p.y) := by
  rw [cepstrum_detect_eq_map] at h
  obtain ⟨q, hq, hpq⟩ := Option.map_eq_some'.mp h
  obtain ⟨l1, l2, heq, ha, hb⟩ := reduce_max_split _ q hq
  subst hpq
  exact ⟨l1, l2, heq, ha, hb⟩

/-- C8 witness: the concrete run of the C2 scenario, phrased at the
detect_unscaled_freq level with window (1, 6). -/
theorem C8_cepstrum_peak_finder_then_earliest_max_witness :
    (PowerCepstrum.detect_unscaled_freq Eid [2, 0, 0, 10, 6, 0] (1, 6) ⟨[]⟩).1
      = some ⟨255/82, 8281/82⟩ ∧
    ∃ l1 l2,
      fft_peaks (PowerCepstrum.spectrum Eid
          (PowerCepstrum.process_fft Eid [2, 0, 0, 10, 6, 0] ⟨[]⟩) (1, 6)) 60 10
        = l1 ++ ((255/82 : ℚ), (8281/82 : ℚ)) :: l2 ∧
      (∀ x ∈ l1, x.2 < (8281/82 : ℚ)) ∧ (∀ x ∈ l2, x.2 ≤ (8281/82 : ℚ)) := by
  have hev : (PowerCepstrum.detect_unscaled_freq Eid [2, 0, 0, 10, 6, 0] (1, 6) ⟨[]⟩).1
      = some ⟨255/82, 8281/82⟩ := by
    norm_num [PowerCepstrum.detect_unscaled_freq, PowerCepstrum.process_fft,
      PowerCepstrum.spectrum, FftSpace.freq_domain,
      FftSpace.init_fft_space, FftSpace.map, Eid, Cplx.norm_sqr,
      reduce_max, fft_peaks, isLocalMax, prominence, leftValleyFrom,
      rightValleyFrom, sepStep, peakAt, List.enum, List.enumFrom,
      List.range, List.filter]
  exact ⟨hev, C8_cepstrum_peak_finder_then_earliest_max Eid [2, 0, 0, 10, 6, 0]
    (1, 6) ⟨[]⟩ ⟨255/82, 8281/82⟩ hev⟩

/-- Interpolation denominator at index i, as computed by the Peak
Interpolator: s[i-1] - 2 s[i] + s[i+1]. -/
def denomAt (spectrum : List ℚ) (i : ℕ) : ℚ :=
  spectrum.getD (i - 1) 0 - 2 * spectrum.getD i 0 + spectrum.getD (i + 1) 0

/-- Failure characterization of the Peak Interpolator: none exactly at a
boundary index or on a zero denominator. -/
theorem interpolated_peak_at_eq_none_iff (s : List ℚ) (i : ℕ) :
    interpolated_peak_at s i = none ↔ i = 0 ∨ s.length ≤ i + 1 ∨ denomAt s i = 0 := by
  by_cases h1 : i = 0 ∨ s.length ≤ i + 1
  · refine iff_of_true ?_ (by tauto)
    unfold interpolated_peak_at
    rw [if_pos h1]
  · by_cases h2 : denomAt s i = 0
    · refine iff_of_true ?_ (Or.inr (Or.inr h2))
      have h2x : s.getD (i - 1) 0 - 2 * s.getD i 0 + s.getD (i + 1) 0 = 0 := h2
      simp only [interpolated_peak_at, if_neg h1]
      rw [if_pos h2x]
    · refine iff_of_false ?_ (by tauto)
      have h2x : ¬ s.getD (i - 1) 0 - 2 * s.getD i 0 + s.getD (i + 1) 0 = 0 := h2
      simp only [interpolated_peak_at, if_neg h1]
      rw [if_neg h2x]
      exact Option.some_ne_none _

/-- The maximum scan yields none exactly on the empty sequence. -/
theorem reduce_max_eq_none_iff {α : Type} (xs : List (α × ℚ)) :
    reduce_max xs = none ↔ xs = [] := by
  cases xs <;> simp [reduce_max]

/-- C6: the Autocorrelation Detector returns None exactly when the restricted
window is empty, or the index selected by the maximum scan is the first or
last index of the window, or the three-point interpolation denominator at that
index is zero; in every other case the detector returns a frequency. -/
theorem C6_autocorr_none_iff_empty_or_boundary_or_degenerate
    (E : Externals) (MIN_FREQ MAX_FREQ : ℚ) (signal : List ℚ) (sample_rate : ℚ)
    (fs : FftSpace) :
    (AutocorrelationDetector.detect_frequency_with_fft_space E MIN_FREQ MAX_FREQ
        signal sample_rate fs).1 = none ↔
      (AutocorrelationDetector.unscaled_spectrum
          (AutocorrelationDetector.process_fft E signal fs)
          (AutocorrelationDetector.relevant_fft_range MIN_FREQ MAX_FREQ sample_rate)) = [] ∨
      ∃ i v,
        reduce_max (AutocorrelationDetector.unscaled_spectrum
            (AutocorrelationDetector.process_fft E signal fs)
            (AutocorrelationDetector.relevant_fft_range MIN_FREQ MAX_FREQ sample_rate)).enum
          = some (i, v) ∧
        (i = 0 ∨
          (AutocorrelationDetector.unscaled_spectrum
            (AutocorrelationDetector.process_fft E signal fs)
            (AutocorrelationDetector.relevant_fft_range MIN_FREQ MAX_FREQ sample_rate)).length
            ≤ i + 1 ∨
          denomAt (AutocorrelationDetector.unscaled_spectrum
            (AutocorrelationDetector.process_fft E signal fs)
            (AutocorrelationDetector.relevant_fft_range MIN_FREQ MAX_FREQ sample_rate)) i = 0) := by
  have htop : (AutocorrelationDetector.detect_frequency_with_fft_space E MIN_FREQ MAX_FREQ
      signal sample_rate fs).1 =
    ((AutocorrelationDetector.detect_unscaled_freq E signal
      (AutocorrelationDetector.relevant_fft_range MIN_FREQ MAX_FREQ sample_rate) fs).1).map
      (fun point => sample_rate /
        (((AutocorrelationDetector.relevant_fft_range MIN_FREQ MAX_FREQ sample_rate).1 : ℚ)
          + point.x)) := rfl
  rw [htop, Option.map_eq_none', autocorr_detect_eq_bind]
  constructor
  · intro h
    rcases hr : reduce_max (AutocorrelationDetector.unscaled_spectrum
        (AutocorrelationDetector.process_fft E signal fs)
        (AutocorrelationDetector.relevant_fft_range MIN_FREQ MAX_FREQ sample_rate)).enum
      with _ | ⟨i, v⟩
    · left
      exact by simpa using congrArg List.length ((reduce_max_eq_none_iff _).mp hr)
    · right
      rw [hr] at h
      simp only [Option.some_bind] at h
      exact ⟨i, v, rfl, (interpolated_peak_at_eq_none_iff _ _).mp h⟩
  · intro h
    rcases h with h | ⟨i, v, hr, hcond⟩
    · have hnone : reduce_max (AutocorrelationDetector.unscaled_spectrum
          (AutocorrelationDetector.process_fft E signal fs)
          (AutocorrelationDetector.relevant_fft_range MIN_FREQ MAX_FREQ sample_rate)).enum
          = none := by
        rw [reduce_max_eq_none_iff, h]
        rfl
      rw [hnone]
      rfl
    · rw [hr]
      simp only [Option.some_bind]
      exact (interpolated_peak_at_eq_none_iff _ _).mpr hcond

/-- Membership invariant of the separation fold: every surviving position came
from the accumulator or from the candidate list. -/
theorem sepFold_mem (minSep : ℕ) (amps : List ℚ) :
    ∀ (cands acc : List ℕ) (j : ℕ),
      j ∈ cands.foldl (sepStep minSep amps) acc → j ∈ acc ∨ j ∈ cands := by
  intro cands
  induction cands with
  | nil =>
    intro acc j h
    exact Or.inl h
  | cons c t ih =>
    intro acc j h
    rw [List.foldl_cons] at h
    rcases ih (sepStep minSep amps acc c) j h with h2 | h2
    · cases acc with
      | nil =>
        simp only [sepStep, List.mem_singleton] at h2
        exact Or.inr (h2 ▸ List.mem_cons_self c t)
      | cons p rest =>
        simp only [sepStep] at h2
        split_ifs at h2 with hsep hlt
        · rcases List.mem_cons.mp h2 with rfl | hm
          · exact Or.inr (List.mem_cons_self j t)
          · exact Or.inl (List.mem_cons_of_mem p hm)
        · exact Or.inl h2
        · rcases List.mem_cons.mp h2 with rfl | hm
          · exact Or.inr (List.mem_cons_self j t)
          · exact Or.inl hm
    · exact Or.inr (List.mem_cons_of_mem c h2)

/-- Element j of the windowed cepstrum is the pair (lower_limit + j, amplitude
of absolute bin lower_limit + j): enumeration happens before the skip. -/
theorem cepstrum_spectrum_getD (E : Externals) (fs : FftSpace) (fft_range : ℕ × ℕ) (j : ℕ)
    (h : j < (PowerCepstrum.spectrum E fs fft_range).length) :
    (PowerCepstrum.spectrum E fs fft_range).getD j (0, 0) =
      (fft_range.1 + j, (fs.freq_domain E).getD (fft_range.1 + j) 0) := by
  unfold PowerCepstrum.spectrum at h ⊢
  have hlen : j < (((fs.freq_domain E).enum.drop fft_range.1).take
      (fft_range.2 - fft_range.1)).length := h
  have hlen2 : j < ((fs.freq_domain E).enum.drop fft_range.1).length := by
    simp only [List.length_take] at hlen
    omega
  have hbound : fft_range.1 + j < (fs.freq_domain E).enum.length := by
    simp only [List.length_drop] at hlen2
    omega
  have hbound2 : fft_range.1 + j < (fs.freq_domain E).length := by
    simpa using hbound
  rw [List.getD_eq_getElem _ _ hlen, List.getElem_take, List.getElem_drop,
    List.getElem_enum, List.getD_eq_getElem _ _ hbound2]

/-- C3: the windowed cepstrum passed to the peak finder carries absolute
quefrency bin indices (element j is bin lower_limit + j, so the first element
has index lower_limit, not 0), and consequently every candidate the peak
finder emits has an x-coordinate of the form (lower_limit + j) + delta, the
absolute bin index of the peak plus its sub-bin interpolation offset, so the
x entering the sample_rate / interpolated_bin conversion already includes the
window's lower-bin offset. -/
theorem C3_cepstrum_window_carries_absolute_indices
    (E : Externals) (fs : FftSpace) (fft_range : ℕ × ℕ) :
    (∀ j, j < (PowerCepstrum.spectrum E fs fft_range).length →
      (PowerCepstrum.spectrum E fs fft_range).getD j (0, 0) =
        (fft_range.1 + j, (fs.freq_domain E).getD (fft_range.1 + j) 0)) ∧
    (0 < (PowerCepstrum.spectrum E fs fft_range).length →
      ((PowerCepstrum.spectrum E fs fft_range).getD 0 (0, 0)).1 = fft_range.1) ∧
    (∀ p, p ∈ fft_peaks (PowerCepstrum.spectrum E fs fft_range) 60 10 →
      ∃ j, j < (PowerCepstrum.spectrum E fs fft_range).length ∧
        p.1 = ((fft_range.1 + j : ℕ) : ℚ) +
          (((PowerCepstrum.spectrum E fs fft_range).getD (j - 1) (0, 0)).2 -
              ((PowerCepstrum.spectrum E fs fft_range).getD (j + 1) (0, 0)).2) /
            (2 * (((PowerCepstrum.spectrum E fs fft_range).getD (j - 1) (0, 0)).2 -
              2 * ((PowerCepstrum.spectrum E fs fft_range).getD j (0, 0)).2 +
              ((PowerCepstrum.spectrum E fs fft_range).getD (j + 1) (0, 0)).2))) := by
  refine ⟨cepstrum_spectrum_getD E fs fft_range, ?_, ?_⟩
  · intro h0
    rw [cepstrum_spectrum_getD E fs fft_range 0 h0]
    rfl
  · intro p hp
    unfold fft_peaks at hp
    obtain ⟨j, hjmem, hpj⟩ := List.mem_map.mp hp
    rw [List.mem_reverse] at hjmem
    have hj2 := sepFold_mem 60 ((PowerCepstrum.spectrum E fs fft_range).map Prod.snd)
      _ [] j hjmem
    rcases hj2 with h2 | h2
    · simp at h2
    · have hjlt : j < (PowerCepstrum.spectrum E fs fft_range).length := by
        have := List.mem_filter.mp h2
        simpa using List.mem_range.mp this.1
      refine ⟨j, hjlt, ?_⟩
      rw [← hpj]
      unfold peakAt
      rw [cepstrum_spectrum_getD E fs fft_range j hjlt]

/-- Concrete workspace whose freq_domain amplitudes under Eid are
[4, 0, 0, 100, 36, 0]. -/
def fsC : FftSpace := ⟨[⟨4, 0⟩, ⟨0, 0⟩, ⟨0, 0⟩, ⟨100, 0⟩, ⟨36, 0⟩, ⟨0, 0⟩]⟩

/-- Concrete workspace with 8 zero bins. -/
def fs8 : FftSpace :=
  ⟨[⟨0, 0⟩, ⟨0, 0⟩, ⟨0, 0⟩, ⟨0, 0⟩, ⟨0, 0⟩, ⟨0, 0⟩, ⟨0, 0⟩, ⟨0, 0⟩]⟩

/-- C3 witness: on the concrete window (1, 6) of fsC the first element has
index 1, and the single emitted peak 255/82 decomposes as absolute bin 3 plus
the interpolation offset 9/82. -/
theorem C3_cepstrum_window_carries_absolute_indices_witness :
    0 < (PowerCepstrum.spectrum Eid fsC (1, 6)).length ∧
    ((PowerCepstrum.spectrum Eid fsC (1, 6)).getD 0 (0, 0)).1 = (1, 6).1 ∧
    ((255/82 : ℚ), (8281/82 : ℚ)) ∈ fft_peaks (PowerCepstrum.spectrum Eid fsC (1, 6)) 60 10 ∧
    ∃ j, j < (PowerCepstrum.spectrum Eid fsC (1, 6)).length ∧
      ((255/82 : ℚ), (8281/82 : ℚ)).1 = (((1, 6).1 + j : ℕ) : ℚ) +
        (((PowerCepstrum.spectrum Eid fsC (1, 6)).getD (j - 1) (0, 0)).2 -
            ((PowerCepstrum.spectrum Eid fsC (1, 6)).getD (j + 1) (0, 0)).2) /
          (2 * (((PowerCepstrum.spectrum Eid fsC (1, 6)).getD (j - 1) (0, 0)).2 -
            2 * ((PowerCepstrum.spectrum Eid fsC (1, 6)).getD j (0, 0)).2 +
            ((PowerCepstrum.spectrum Eid fsC (1, 6)).getD (j + 1) (0, 0)).2)) := by
  have h0 : 0 < (PowerCepstrum.spectrum Eid fsC (1, 6)).length := by
    norm_num [PowerCepstrum.spectrum, FftSpace.freq_domain, Eid, fsC,
      List.enum, List.enumFrom]
  have hm : ((255/82 : ℚ), (8281/82 : ℚ))
      ∈ fft_peaks (PowerCepstrum.spectrum Eid fsC (1, 6)) 60 10 := by
    norm_num [PowerCepstrum.spectrum, FftSpace.freq_domain, Eid, fsC,
      List.enum, List.enumFrom, fft_peaks, isLocalMax, prominence,
      leftValleyFrom, rightValleyFrom, sepStep, peakAt, List.range, List.filter]
  exact ⟨h0, (C3_cepstrum_window_carries_absolute_indices Eid fsC (1, 6)).2.1 h0, hm,
    (C3_cepstrum_window_carries_absolute_indices Eid fsC (1, 6)).2.2 _ hm⟩

/-- C4 counterexample: at sample rate 12 with frequency bounds (2, 12) both
detectors compute the range (1, 6), yet on a workspace with 8 bins the scanned
window omits the upper endpoint bin 6: the cepstrum window indices are
[1, 2, 3, 4, 5] and the autocorrelation window holds 5 = 6 - 1 values, not 6.
This refutes the claim that peak search includes both endpoint bins. -/
theorem C4_counterexample_upper_bin_excluded :
    PowerCepstrum.relevant_fft_range 2 12 12 = (1, 6) ∧
    AutocorrelationDetector.relevant_fft_range 2 12 12 = (1, 6) ∧
    6 < (FftSpace.freq_domain Eid fs8).length ∧
    6 ∉ (PowerCepstrum.spectrum Eid fs8 (1, 6)).map Prod.fst ∧
    (AutocorrelationDetector.unscaled_spectrum fs8 (1, 6)).length = 5 := by
  refine ⟨?_, ?_, ?_, ?_, ?_⟩
  · norm_num [PowerCepstrum.relevant_fft_range]
    rfl
  · norm_num [AutocorrelationDetector.relevant_fft_range]
    rfl
  · norm_num [FftSpace.freq_domain, Eid, fs8]
  · norm_num [PowerCepstrum.spectrum, FftSpace.freq_domain, Eid, fs8,
      List.enum, List.enumFrom]
  · norm_num [AutocorrelationDetector.unscaled_spectrum, fs8]

/-- C4 as amended: for every sample rate both detectors compute exactly the
same (lower, upper) pair, lower = round(sample_rate / MAX_FREQ) and upper =
round(sample_rate / MIN_FREQ), and the scanned quefrency bins form the
half-open range [lower, upper): the lower endpoint is included, the upper
endpoint is excluded, and the window holds upper - lower bins. -/
theorem C4_amended_same_pair_half_open_window
    (E : Externals) (MIN_FREQ MAX_FREQ sample_rate : ℚ) (fs : FftSpace)
    (h : (PowerCepstrum.relevant_fft_range MIN_FREQ MAX_FREQ sample_rate).2
      ≤ fs.space.length) :
    AutocorrelationDetector.relevant_fft_range MIN_FREQ MAX_FREQ sample_rate
      = PowerCepstrum.relevant_fft_range MIN_FREQ MAX_FREQ sample_rate ∧
    (PowerCepstrum.spectrum E fs
        (PowerCepstrum.relevant_fft_range MIN_FREQ MAX_FREQ sample_rate)).map Prod.fst
      = List.range' (PowerCepstrum.relevant_fft_range MIN_FREQ MAX_FREQ sample_rate).1
          ((PowerCepstrum.relevant_fft_range MIN_FREQ MAX_FREQ sample_rate).2
            - (PowerCepstrum.relevant_fft_range MIN_FREQ MAX_FREQ sample_rate).1) ∧
    (AutocorrelationDetector.unscaled_spectrum fs
        (AutocorrelationDetector.relevant_fft_range MIN_FREQ MAX_FREQ sample_rate)).length
      = (AutocorrelationDetector.relevant_fft_range MIN_FREQ MAX_FREQ sample_rate).2
        - (AutocorrelationDetector.relevant_fft_range MIN_FREQ MAX_FREQ sample_rate).1 := by
  refine ⟨rfl, ?_, ?_⟩
  · apply List.ext_getElem
    · simp only [List.length_map, PowerCepstrum.spectrum, List.length_take,
        List.length_drop, List.enum_length, List.length_range',
        FftSpace.freq_domain]
      omega
    · intro i h1 h2
      rw [List.getElem_map]
      have hi : i < (PowerCepstrum.spectrum E fs
          (PowerCepstrum.relevant_fft_range MIN_FREQ MAX_FREQ sample_rate)).length := by
        simpa using h1
      rw [← List.getD_eq_getElem _ (0, 0) hi,
        cepstrum_spectrum_getD E fs _ i hi, List.getElem_range'_1]
  · simp only [AutocorrelationDetector.unscaled_spectrum, List.length_map,
      List.length_take, List.length_drop]
    have hre : (AutocorrelationDetector.relevant_fft_range MIN_FREQ MAX_FREQ sample_rate)
        = (PowerCepstrum.relevant_fft_range MIN_FREQ MAX_FREQ sample_rate) := rfl
    rw [hre]
    omega

/-- C4 witness: the amended statement instantiated on the 8-bin workspace with
range (1, 6): the cepstrum window indices are range' 1 5 = [1, 2, 3, 4, 5] and
the autocorrelation window length is 5. -/
theorem C4_amended_same_pair_half_open_window_witness :
    (PowerCepstrum.relevant_fft_range 2 12 12).2 ≤ fs8.space.length ∧
    (AutocorrelationDetector.relevant_fft_range 2 12 12
      = PowerCepstrum.relevant_fft_range 2 12 12 ∧
    (PowerCepstrum.spectrum Eid fs8
        (PowerCepstrum.relevant_fft_range 2 12 12)).map Prod.fst
      = List.range' (PowerCepstrum.relevant_fft_range 2 12 12).1
          ((PowerCepstrum.relevant_fft_range 2 12 12).2
            - (PowerCepstrum.relevant_fft_range 2 12 12).1) ∧
    (AutocorrelationDetector.unscaled_spectrum fs8
        (AutocorrelationDetector.relevant_fft_range 2 12 12)).length
      = (AutocorrelationDetector.relevant_fft_range 2 12 12).2
        - (AutocorrelationDetector.relevant_fft_range 2 12 12).1) := by
  have hh : (PowerCepstrum.relevant_fft_range 2 12 12).2 ≤ fs8.space.length := by
    have : PowerCepstrum.relevant_fft_range 2 12 12 = (1, 6) := by
      norm_num [PowerCepstrum.relevant_fft_range]
      rfl
    rw [this]
    norm_num [fs8]
  exact ⟨hh, C4_amended_same_pair_half_open_window Eid 2 12 12 fs8 hh⟩
